import Mathlib

/-!
Verification of the string-manipulation core (`taipan/strings.py`).

Python strings are modelled as `List Char`.  Every taipan function is
translated from the source: fallible operations return
`Except PyErr (List Char)` (a raised exception becomes `.error`), and the
behaviour of the CPython builtins the source calls (`str.split`,
`str.replace`, `str.capitalize`, `re.sub`/`re.split` on alternations of
escaped literals, `dict` insertion order, `sorted(key=len, reverse=True)`)
is modelled explicitly next to its use.  All definitions are executable, so
concrete runs are settled by `decide`/`rfl`.
-/

namespace Taipan

/-- Characters of a Lean string literal, used to write concrete Python
strings in statements. -/
def pys (s : String) : List Char := s.data

/-- Error kinds raised by the source, one constructor per kind of `raise`
site: `TypeError`, generic `ValueError`, the strict-trim "does not
start/end with expected ..." `ValueError` (the spec's NotFoundError kind),
and `ReplacementError` (a `ValueError` subclass). -/
inductive PyErr
  | typeError
  | valueError
  | notFound
  | replacementError
deriving DecidableEq, Repr

/-- A Python value as far as the join error policies can observe one:
a string, or a non-string (represented by an integer, as in the spec's
`join("-", [1, "a"], ...)` examples). -/
inductive PyVal
  | str (s : List Char)
  | int (n : Int)
deriving DecidableEq, Repr

/-- `ensure_string`: return the string, raise `TypeError` otherwise. -/
def ensure_string : PyVal → Except PyErr (List Char)
  | .str s => .ok s
  | _ => .error PyErr.typeError

/-- `is_string` as a Bool, used by the `ignore` join policy's filter. -/
def is_string : PyVal → Bool
  | .str _ => true
  | _ => false

/-- Decimal digits of a natural number, as `str()` prints it. -/
def natStr (n : Nat) : List Char := Nat.toDigits 10 n

/-- `str(x)` — the textual cast used by join's `cast` policy
(`delimiter.__class__(x)`): identity on strings, decimal text for ints. -/
def pyStr : PyVal → List Char
  | .str s => s
  | .int n => if n < 0 then '-' :: natStr n.natAbs else natStr n.toNat

/-- `delimiter.join(pieces)` for string pieces: concatenation with the
delimiter between consecutive pieces. -/
def joinWith (sep : List Char) : List (List Char) → List Char
  | [] => []
  | [x] => x
  | x :: y :: rest => x ++ sep ++ joinWith sep (y :: rest)

/-- The error-policy tokens accepted by `join` (`'raise'`/`True`,
`'ignore'`/`None`, `'cast'`/`False`, `'replace'`, anything else).  The
boolean/None aliases collapse onto the same constructors. -/
inductive JoinErrors
  | raiseE
  | ignoreE
  | castE
  | replaceE
  | otherE
deriving DecidableEq, Repr

/-- `with_` for the `replace` policy: a fixed string, or a callable from
the offending value to a replacement value. -/
inductive ReplaceWith
  | str (w : List Char)
  | func (f : PyVal → PyVal)

/-- `join(delimiter, iterable, errors=..., with_=...)` from the source:
dispatch on the error policy, transform/filter/validate the elements,
then `delimiter.join` the result.  The lazy `imap`/`ifilter`/generator
pipelines of the source are strict lists here; `Except`'s `mapM` stops at
the first raised error exactly as the lazy pipeline does inside
`delimiter.join`. -/
def join (delimiter : List Char) (iterable : List PyVal)
    (errors : JoinErrors) (with_ : Option ReplaceWith) :
    Except PyErr (List Char) :=
  match errors with
  | .raiseE => do
    let ss ← iterable.mapM ensure_string
    pure (joinWith delimiter ss)
  | .ignoreE =>
    .ok (joinWith delimiter ((iterable.filter is_string).filterMap
      (fun x => match x with | .str s => some s | _ => Option.none)))
  | .castE =>
    .ok (joinWith delimiter (iterable.map pyStr))
  | .replaceE =>
    match with_ with
    | Option.none => .error PyErr.valueError
    | some (.str w) => do
      let ss ← iterable.mapM
        (fun x => match x with
          | .str s => Except.ok s
          | _ => ensure_string (PyVal.str w))
      pure (joinWith delimiter ss)
    | some (.func f) => do
      let ss ← iterable.mapM
        (fun x => match x with
          | .str s => Except.ok s
          | _ => ensure_string (f x))
      pure (joinWith delimiter ss)
  | .otherE => .error PyErr.typeError

/-- Python `str.isspace` for the characters relevant here (the ASCII
whitespace set; the model does not cover the exotic Unicode space
characters, which no claim mentions). -/
def isPySpace (c : Char) : Bool :=
  c = ' ' || c = '\t' || c = '\n' || c = '\r' || c = '\x0b' || c = '\x0c'

/-- CPython `str.split(None, maxsplit)` (whitespace split), fuelled for
structural recursion: skip leading whitespace; when the split budget is
exhausted the rest (trailing whitespace included) is the last fragment;
otherwise take the maximal non-whitespace run as a fragment and continue.
`Option.none` is an unlimited budget.  One character at least is consumed
per step, so `s.length` fuel is always enough. -/
def pysplitWSGo : Nat → Option Nat → List Char → List (List Char)
  | 0, _, _ => []
  | fuel + 1, n, s =>
    match s.dropWhile isPySpace with
    | [] => []
    | c :: cs =>
      if n = some 0 then [c :: cs]
      else
        ((c :: cs).takeWhile (fun ch => !(isPySpace ch))) ::
          pysplitWSGo fuel (n.map Nat.pred)
            ((c :: cs).dropWhile (fun ch => !(isPySpace ch)))

/-- `s.split(None)` / `s.split(None, maxsplit)`. -/
def pysplitWS (n : Option Nat) (s : List Char) : List (List Char) :=
  pysplitWSGo s.length n s

/-- CPython `str.split(sep, maxsplit)` for a literal separator, fuelled:
at each position, if the budget is not exhausted and `sep` starts here,
close the current fragment and continue past `sep`; otherwise the
character joins the current fragment.  Empty fragments (leading, trailing,
between adjacent separators) are preserved.  Each step consumes at least
one character, so `s.length` fuel is always enough (the fuel-exhausted
value `[s]` is exactly the no-separator-found result). -/
def pysplitGo (sep : List Char) : Nat → Option Nat → List Char → List (List Char)
  | 0, _, s => [s]
  | fuel + 1, n, s =>
    match s with
    | [] => [[]]
    | c :: cs =>
      if sep ≠ [] ∧ n ≠ some 0 ∧ sep.isPrefixOf (c :: cs) then
        [] :: pysplitGo sep fuel (n.map Nat.pred) ((c :: cs).drop sep.length)
      else
        match pysplitGo sep fuel n cs with
        | [] => [[c]]
        | w :: ws => (c :: w) :: ws

/-- `s.split(sep)` / `s.split(sep, maxsplit)` for a non-empty literal
separator (`split` below raises before calling this with an empty one). -/
def pysplitN (sep : List Char) (n : Option Nat) (s : List Char) : List (List Char) :=
  pysplitGo sep s.length n s

/-- The compiled patterns this model covers: alternations of literal
branches, which is every pattern the source itself builds
(`re.compile('|'.join(map(re.escape, literals)))`).  `branches` stores the
unescaped literals; an escaped literal matches exactly the literal. -/
structure PyRegex where
  branches : List (List Char)
deriving DecidableEq, Repr

/-- The pattern string of an alternation of escaped literals, as far as
its truthiness (`not by.pattern`) can observe it: `re.escape` maps a
non-empty literal to a non-empty escaped form, so the joined pattern
string is empty exactly when the unescaped join is. -/
def patternText (branches : List (List Char)) : List Char :=
  joinWith (pys "|") branches

/-- `re.split` of an alternation of literal branches, fuelled.  Branches
are tried in order at each position (leftmost match, first matching branch
wins, matches do not overlap); the budget `Option.none` is unlimited.  A
zero-width match (possible only via an empty literal branch) splits and
the following character opens the next fragment, the post-3.7 empty-match
rule; no claim reaches a zero-width branch. -/
def reSplitGo (branches : List (List Char)) : Nat → Option Nat → List Char → List (List Char)
  | 0, _, s => [s]
  | fuel + 1, n, s =>
    if n = some 0 then [s]
    else
      match s with
      | [] =>
        match branches.find? (fun b => b.isPrefixOf []) with
        | some _ => [[], []]
        | Option.none => [[]]
      | c :: cs =>
        match branches.find? (fun b => b.isPrefixOf (c :: cs)) with
        | Option.none =>
          match reSplitGo branches fuel n cs with
          | [] => [[c]]
          | w :: ws => (c :: w) :: ws
        | some b =>
          if b = [] then
            [] :: (match reSplitGo branches fuel (n.map Nat.pred) cs with
                   | [] => [[c]]
                   | w :: ws => (c :: w) :: ws)
          else
            [] :: reSplitGo branches fuel (n.map Nat.pred) ((c :: cs).drop b.length)

/-- `by.split(s, maxsplit=m)` for an alternation regex; in `re`, budget 0
means unlimited. -/
def reSplit (branches : List (List Char)) (maxsplit : Nat) (s : List Char) :
    List (List Char) :=
  reSplitGo branches (s.length + 1)
    (if maxsplit = 0 then Option.none else some maxsplit) s

/-- The delimiter shapes `split` dispatches on: `None`, a literal string,
a compiled pattern, or an iterable of delimiters. -/
inductive By
  | none
  | lit (sep : List Char)
  | regex (r : PyRegex)
  | coll (seps : List PyVal)

/-- The regex branch of `split`: raise like `s.split('')` when the
pattern string is empty, return `[s]` untouched when `maxsplit == 0`,
otherwise delegate to the pattern's own split (`maxsplit or 0`). -/
def splitRegexBranches (branches : List (List Char)) (maxsplit : Option Nat)
    (s : List Char) : Except PyErr (List (List Char)) :=
  if patternText branches = [] then .error PyErr.valueError
  else if maxsplit = some 0 then .ok [s]
  else .ok (reSplit branches (maxsplit.getD 0) s)

/-- `split(s, by=..., maxsplit=...)` from the source.  String delimiters
go to `str.split` (which raises `ValueError` on an empty separator); regex
delimiters get the two guarded edge cases; an iterable of delimiters is
checked non-empty, its elements are passed through `ensure_string`, the
empty haystack short-circuits to `['']`, and otherwise one alternation
pattern of the escaped literals is built and the regex case is entered
(the source's recursive `split(s, by=re.compile(regex), maxsplit)`). -/
def split (s : List Char) (by_ : By) (maxsplit : Option Nat) :
    Except PyErr (List (List Char)) :=
  match by_ with
  | By.none => .ok (pysplitWS maxsplit s)
  | By.lit sep =>
    if sep = [] then .error PyErr.valueError
    else .ok (pysplitN sep maxsplit s)
  | By.regex r => splitRegexBranches r.branches maxsplit s
  | By.coll seps =>
    if seps = [] then .error PyErr.valueError
    else do
      let lits ← seps.mapM ensure_string
      if s = [] then pure [[]]
      else splitRegexBranches lits maxsplit s

/-- `trim(s, prefix=..., suffix=..., strict=...)` from the source:
exactly one of the two infixes must be given; a present infix is sliced
off (`s[len(p):]` / `s[:-len(q)]`, the latter guarded against an empty
suffix); a missing infix raises the "not found" `ValueError` under
`strict` and returns `s` unchanged otherwise. -/
def trim (s : List Char) (pre suf : Option (List Char)) (strict : Bool) :
    Except PyErr (List Char) :=
  if pre.isSome = suf.isSome then .error PyErr.valueError
  else
    match pre, suf with
    | some p, _ =>
      if p.isPrefixOf s then .ok (s.drop p.length)
      else if strict then .error PyErr.notFound
      else .ok s
    | Option.none, some q =>
      if q.isSuffixOf s then .ok (if q = [] then s else s.take (s.length - q.length))
      else if strict then .error PyErr.notFound
      else .ok s
    | Option.none, Option.none => .error PyErr.valueError

/-- Python `str.capitalize()`: first character upper-cased, the rest
lower-cased (ASCII model of the casing maps). -/
def pyCapitalize : List Char → List Char
  | [] => []
  | c :: cs => c.toUpper :: cs.map Char.toLower

/-- `camel_case(arg, capitalize=...)` from the source: empty input is
returned unchanged; otherwise the words of the whitespace split are each
capitalized, but index 0 is then overwritten with `first_word` — the
first word of the ORIGINAL split, re-capitalized under `capitalize=True`,
first-letter-lowered under `capitalize=False`, and kept with its original
input casing under `capitalize=None` — and the words are joined with the
empty delimiter (the source's `join(arg.__class__(), words)`, default
`errors` policy). -/
def camel_case (arg : List Char) (capitalize : Option Bool) :
    Except PyErr (List Char) :=
  if arg = [] then .ok arg
  else do
    let words ← split arg By.none Option.none
    let first_word := words.head?
    let capWords := words.map pyCapitalize
    let outWords :=
      match first_word with
      | Option.none => capWords
      | some fw =>
        let fw2 :=
          match capitalize with
          | some true => pyCapitalize fw
          | some false => (fw.take 1).map Char.toLower ++ fw.drop 1
          | Option.none => fw
        capWords.set 0 fw2
    join [] (outWords.map PyVal.str) JoinErrors.raiseE Option.none

/-- Python dict insert (3.7 semantics): an existing key keeps its
position and gets the new value, a new key is appended. -/
def dictInsert (m : List (List Char × List Char)) (k v : List Char) :
    List (List Char × List Char) :=
  if m.any (fun kv => kv.fst == k) then
    m.map (fun kv => if kv.fst == k then (kv.fst, v) else kv)
  else m ++ [(k, v)]

/-- `dict(pairs)`: insertion-ordered association list. -/
def dictOfPairs (ps : List (List Char × List Char)) :
    List (List Char × List Char) :=
  ps.foldl (fun m kv => dictInsert m kv.fst kv.snd) []

/-- `dict.fromkeys(keys, value)`. -/
def dictFromKeys (ks : List (List Char)) (v : List Char) :
    List (List Char × List Char) :=
  ks.foldl (fun m k => dictInsert m k v) []

/-- Dict lookup `d[k]`; the default is unreachable at the one use site
(`in_` only looks up text matched by a branch that is a key). -/
def dictGet (m : List (List Char × List Char)) (k : List Char) : List Char :=
  match m.find? (fun kv => kv.fst == k) with
  | some kv => kv.snd
  | Option.none => []

/-- One step of Python's stable `sorted(.., key=len, reverse=True)`:
insert before the first strictly shorter element, after equals. -/
def insertDescLen (x : List Char) : List (List Char) → List (List Char)
  | [] => [x]
  | y :: ys => if y.length ≤ x.length then x :: y :: ys else y :: insertDescLen x ys

/-- `sorted(keys, key=len, reverse=True)`: stable descending-length order
(equal lengths keep their original relative order, as CPython's stable
sort does under `reverse=True`). -/
def sortDescLen (xs : List (List Char)) : List (List Char) :=
  xs.foldr insertDescLen []

/-- CPython `haystack.replace(old, new)`: all non-overlapping occurrences
of `old`, left to right (`new.join(haystack.split(old))` for a non-empty
`old`; an empty `old` inserts `new` between all characters and at both
ends). -/
def pyreplace (old new s : List Char) : List Char :=
  if old = [] then new ++ (s.map (fun c => c :: new)).flatten
  else joinWith new (pysplitN old Option.none s)

/-- `re.sub` of an alternation of escaped literal branches with a
per-match lookup, fuelled: scan left to right; at each position the first
branch (in pattern order) that matches wins, the replacement for the
matched text is emitted and the scan resumes after the match; unmatched
text passes through.  A zero-width match (empty branch) substitutes and
the scan advances one character, the post-3.7 rule.  Each step consumes a
character, so `s.length + 1` fuel always suffices (the final step handles
a zero-width match at the end of the haystack). -/
def subAltGo (branches : List (List Char)) (table : List (List Char × List Char)) :
    Nat → List Char → List Char
  | 0, s => s
  | fuel + 1, s =>
    match s with
    | [] =>
      match branches.find? (fun b => b.isPrefixOf []) with
      | some b => dictGet table b
      | Option.none => []
    | c :: cs =>
      match branches.find? (fun b => b.isPrefixOf (c :: cs)) with
      | Option.none => c :: subAltGo branches table fuel cs
      | some b =>
        if b = [] then dictGet table b ++ c :: subAltGo branches table fuel cs
        else dictGet table b ++ subAltGo branches table fuel ((c :: cs).drop b.length)

/-- `re.sub(regex, do_replace, haystack)` for the alternation regex
`in_` builds. -/
def subAlt (branches : List (List Char)) (table : List (List Char × List Char))
    (s : List Char) : List Char :=
  subAltGo branches table (s.length + 1) s

/-- The two states of a `Replacer`'s `_replacements` attribute: a plain
iterable of needles (no replacement yet), or a needle-to-replacement
mapping (complete). -/
inductive ReplacerState
  | pending (needles : List (List Char))
  | complete (table : List (List Char × List Char))
deriving DecidableEq, Repr

/-- `Replacer.with_(replacement)`: raise `ReplacementError` when the held
`_replacements` is already a mapping, otherwise become
`dict.fromkeys(needles, replacement)`.  An error leaves the replacer's
stored state untouched (the source raises before any mutation). -/
def Replacer.with_ (r : ReplacerState) (replacement : List Char) :
    Except PyErr ReplacerState :=
  match r with
  | .complete _ => .error PyErr.replacementError
  | .pending needles => .ok (.complete (dictFromKeys needles replacement))

/-- `Replacer.in_(haystack)`: raise `ReplacementError` before a mapping
is held; an empty mapping returns the haystack unchanged; a single pair
is a direct `str.replace` (`dicts.peekitem`, a helper outside this
repository's sources, yields the mapping's single item per spec section
4.5); two or more needles are combined into one alternation of escaped
literals sorted by descending length and substituted in one pass with a
per-match table lookup. -/
def Replacer.in_ (r : ReplacerState) (haystack : List Char) :
    Except PyErr (List Char) :=
  match r with
  | .pending _ => .error PyErr.replacementError
  | .complete table =>
    match table with
    | [] => .ok haystack
    | [(k, v)] => .ok (pyreplace k v haystack)
    | _ =>
      .ok (subAlt (sortDescLen (table.map Prod.fst)) table haystack)

/-- The needle shapes `replace` accepts: a single literal, an iterable of
literals, an iterable of (needle, replacement) pairs, or a mapping. -/
inductive Needle
  | str (s : List Char)
  | list (xs : List (List Char))
  | pairs (ps : List (List Char × List Char))
  | mapping (m : List (List Char × List Char))
deriving DecidableEq, Repr

/-- `if not needle` — the falsiness test of each needle shape. -/
def needleIsEmpty : Needle → Bool
  | .str s => s.isEmpty
  | .list xs => xs.isEmpty
  | .pairs ps => ps.isEmpty
  | .mapping m => m.isEmpty

/-- What `replace` returns: the final string when `in_` was supplied,
otherwise the (possibly still pending) `Replacer`. -/
inductive ReplaceOut
  | replacer (r : ReplacerState)
  | result (s : List Char)
deriving DecidableEq, Repr

/-- `replace(needle, with_=..., in_=...)` from the source: an empty
needle raises `ValueError`; a single literal becomes a one-element
pending needle tuple; an iterable of strings stays a pending iterable
(`all(imap(is_pair, ...))` is false for strings); an iterable of pairs is
normalized through `dict(...)`; a mapping is held as is.  A supplied
`with_` completes the replacer through `Replacer.with_` (which raises on
a mapping-derived replacer); a supplied `in_` applies it immediately. -/
def replace (needle : Needle) (with_ : Option (List Char))
    (in_ : Option (List Char)) : Except PyErr ReplaceOut :=
  if needleIsEmpty needle then .error PyErr.valueError
  else do
    let r : ReplacerState :=
      match needle with
      | .str s => .pending [s]
      | .list xs => .pending xs
      | .pairs ps => .complete (dictOfPairs ps)
      | .mapping m => .complete m
    let r2 ← match with_ with
      | Option.none => pure r
      | some w => Replacer.with_ r w
    match in_ with
    | Option.none => pure (ReplaceOut.replacer r2)
    | some h => do
      let out ← Replacer.in_ r2 h
      pure (ReplaceOut.result out)

/-- The length argument of `random`: an integer or an inclusive pair. -/
inductive Length
  | int (n : Int)
  | pair (a b : Int)
deriving DecidableEq, Repr

/-- The randomness `random` consumes, abstracted: `randint a b` draws
from the inclusive range `[a, b]` (raising for an empty range is handled
at the call site), `choice i cs` is the character drawn at position `i`.
The fields constrain the draws to the stated ranges and nothing more. -/
structure PyRandom where
  randint : Int → Int → Int
  randint_mem : ∀ a b : Int, a ≤ b → a ≤ randint a b ∧ randint a b ≤ b
  choice : Nat → List Char → Char
  choice_mem : ∀ (i : Nat) (cs : List Char), cs ≠ [] → choice i cs ∈ cs

/-- `string.ascii_letters + string.digits`, the default character set. -/
def defaultChars : List Char :=
  pys "abcdefghijklmnopqrstuvwxyzABCDEFGHIJKLMNOPQRSTUVWXYZ0123456789"

/-- `random(length, chars=...)` from the source: an explicit empty
character set raises `ValueError`; a pair length is drawn by `randint`
first (`randint` itself raises `ValueError` on an empty range, and the
drawn length is never checked for positivity); an integral length must be
strictly positive or `ValueError` is raised; then one character per
position is drawn from `chars` and joined (`xrange` of a non-positive
drawn length is empty). -/
def random (rng : PyRandom) (length : Length) (chars : Option (List Char)) :
    Except PyErr (List Char) := do
  let cs ← match chars with
    | Option.none => pure defaultChars
    | some c => if c = [] then Except.error PyErr.valueError else pure c
  let len : Int ← match length with
    | .pair a b => if b < a then Except.error PyErr.valueError else pure (rng.randint a b)
    | .int n => if n > 0 then pure n else Except.error PyErr.valueError
  pure (joinWith [] ((List.range len.toNat).map (fun i => [rng.choice i cs])))

/-- Decidable equality on `Except` results, so that concrete runs are
settled by `decide`. -/
instance {ε α : Type} [DecidableEq ε] [DecidableEq α] : DecidableEq (Except ε α) :=
  fun a b =>
    match a, b with
    | .ok x, .ok y =>
      if h : x = y then isTrue (by rw [h])
      else isFalse (fun hh => h (by injection hh))
    | .error x, .error y =>
      if h : x = y then isTrue (by rw [h])
      else isFalse (fun hh => h (by injection hh))
    | .ok _, .error _ => isFalse (fun hh => Except.noConfusion hh)
    | .error _, .ok _ => isFalse (fun hh => Except.noConfusion hh)

/-! ## Helper lemmas -/

theorem joinWith_cons_of_ne_nil (sep x : List Char) {l : List (List Char)}
    (h : l ≠ []) : joinWith sep (x :: l) = x ++ sep ++ joinWith sep l := by
  cases l with
  | nil => exact absurd rfl h
  | cons y ys => rfl

theorem joinWith_head_cons (sep : List Char) (c : Char) (w : List Char)
    (ws : List (List Char)) :
    joinWith sep ((c :: w) :: ws) = c :: joinWith sep (w :: ws) := by
  cases ws <;> rfl

theorem joinWith_nil_cons (x : List Char) (xs : List (List Char)) :
    joinWith [] (x :: xs) = x ++ joinWith [] xs := by
  cases xs with
  | nil => simp [joinWith]
  | cons y ys => simp [joinWith]

theorem exbind_ok {α β : Type} (a : α) (f : α → Except PyErr β) :
    (Except.ok a >>= f) = f a := rfl

theorem pysplitGo_ne_nil (sep : List Char) (fuel : Nat) (n : Option Nat)
    (s : List Char) : pysplitGo sep fuel n s ≠ [] := by
  cases fuel with
  | zero => simp [pysplitGo]
  | succ fuel =>
    cases s with
    | nil => simp [pysplitGo]
    | cons c cs =>
      simp only [pysplitGo]
      split
      · simp
      · split <;> simp

theorem pysplitGo_maxzero (sep : List Char) (fuel : Nat) (s : List Char) :
    pysplitGo sep fuel (some 0) s = [s] := by
  induction fuel generalizing s with
  | zero => rfl
  | succ fuel ih =>
    cases s with
    | nil => rfl
    | cons c cs =>
      simp only [pysplitGo, ih cs]
      rw [if_neg (fun hc => hc.2.1 rfl)]

/-- Round trip of the literal splitter against `joinWith`, for any
sufficient fuel: rejoining the fragments with the separator rebuilds the
input. -/
theorem joinWith_pysplitGo (sep : List Char) (hsep : sep ≠ []) :
    ∀ (fuel : Nat) (s : List Char), s.length ≤ fuel →
      joinWith sep (pysplitGo sep fuel Option.none s) = s := by
  intro fuel
  induction fuel with
  | zero =>
    intro s hs
    have hnil : s = [] := List.eq_nil_of_length_eq_zero (Nat.le_zero.mp hs)
    subst hnil
    rfl
  | succ fuel ih =>
    intro s hs
    cases s with
    | nil => rfl
    | cons c cs =>
      simp only [pysplitGo]
      by_cases hcond :
          sep ≠ [] ∧ (Option.none : Option Nat) ≠ some 0 ∧ sep.isPrefixOf (c :: cs)
      · rw [if_pos hcond]
        have hpre : sep <+: (c :: cs) := List.isPrefixOf_iff_prefix.mp hcond.2.2
        obtain ⟨t, ht⟩ := hpre
        have hslen : 0 < sep.length := List.length_pos.mpr hsep
        have hdrop : (c :: cs).drop sep.length = t := by
          rw [← ht, List.drop_left]
        have hlen : ((c :: cs).drop sep.length).length ≤ fuel := by
          rw [hdrop]
          have hlen2 : sep.length + t.length = (c :: cs).length := by
            rw [← ht, List.length_append]
          simp only [List.length_cons] at hs hlen2
          omega
        simp only [Option.map_none']
        rw [joinWith_cons_of_ne_nil sep [] (pysplitGo_ne_nil sep fuel Option.none _)]
        rw [ih _ hlen, hdrop, List.nil_append, ht]
      · rw [if_neg hcond]
        split
        · exact absurd (by assumption) (pysplitGo_ne_nil sep fuel Option.none cs)
        · next w ws heq =>
            rw [joinWith_head_cons, ← heq,
              ih cs (by simp only [List.length_cons] at hs; omega)]

theorem mapM_str_loop (ss acc : List (List Char)) :
    List.mapM.loop ensure_string (ss.map PyVal.str) acc =
      Except.ok (acc.reverse ++ ss) := by
  induction ss generalizing acc with
  | nil =>
    show Except.ok acc.reverse = Except.ok (acc.reverse ++ [])
    rw [List.append_nil]
  | cons x xs ih =>
    show List.mapM.loop ensure_string (xs.map PyVal.str) (x :: acc) = _
    rw [ih]
    simp

theorem mapM_str (ss : List (List Char)) :
    (ss.map PyVal.str).mapM ensure_string = Except.ok ss := by
  show List.mapM.loop ensure_string (ss.map PyVal.str) [] = Except.ok ss
  rw [mapM_str_loop]
  rfl

/-- The taipan `join` with the default `raise` policy on a list of
strings is the plain delimiter join. -/
theorem join_strs (d : List Char) (ss : List (List Char)) :
    join d (ss.map PyVal.str) JoinErrors.raiseE Option.none =
      Except.ok (joinWith d ss) := by
  show joinWith d <$> (ss.map PyVal.str).mapM ensure_string = _
  rw [mapM_str]
  rfl

/-- A non-degenerate alternation has a non-empty pattern string. -/
theorem patternText_ne_nil (bs : List (List Char)) (h1 : bs ≠ [])
    (h2 : bs ≠ [[]]) : patternText bs ≠ [] := by
  match bs with
  | [x] =>
    cases x with
    | nil => exact absurd rfl h2
    | cons c cs => simp [patternText, joinWith]
  | x :: y :: t =>
    cases x with
    | nil => simp [patternText, joinWith, pys]
    | cons c cs => simp [patternText, joinWith]

/-! ## Claims -/

/-- C1: a complete Replacer with table from foo to X and foobar to Y
applied to "foobar baz foo" yields "Y baz X"; the alternation branches
are the needles in descending length order, so at the overlapping
position the longer needle foobar wins while foo still matches
standalone. -/
theorem replacer_descending_length :
    Replacer.in_ (ReplacerState.complete
        (dictOfPairs [(pys "foo", pys "X"), (pys "foobar", pys "Y")]))
      (pys "foobar baz foo") = .ok (pys "Y baz X") ∧
    sortDescLen ((dictOfPairs [(pys "foo", pys "X"), (pys "foobar", pys "Y")]).map
        Prod.fst) = [pys "foobar", pys "foo"] := by
  decide

/-- C2: multi-needle replacement is simultaneous over the original
haystack: replacing a and b with z in "ab cab" yields "zz czz", and the
mapping a-to-b, b-to-a applied to "ab" yields "ba" (no produced output is
re-scanned). -/
theorem replace_simultaneous :
    replace (Needle.list [pys "a", pys "b"]) (some (pys "z")) (some (pys "ab cab"))
      = .ok (ReplaceOut.result (pys "zz czz")) ∧
    replace (Needle.mapping (dictOfPairs [(pys "a", pys "b"), (pys "b", pys "a")]))
      Option.none (some (pys "ab")) = .ok (ReplaceOut.result (pys "ba")) := by
  decide

/-- C3 (amended): with the default capitalize=None, the first word keeps
its ORIGINAL input casing (the per-word capitalization of the first word
is overwritten by the source's `words[0] = first_word`), and every later
word is capitalized; in particular camel_case("hello world") is
"helloWorld", not "HelloWorld". -/
theorem camel_case_default (arg w : List Char) (ws : List (List Char))
    (h : split arg By.none Option.none = Except.ok (w :: ws)) :
    camel_case arg Option.none =
      Except.ok (w ++ joinWith [] (ws.map pyCapitalize)) := by
  have harg : arg ≠ [] := by
    intro he
    subst he
    rw [show split [] By.none Option.none = Except.ok [] from rfl] at h
    injection h with h2
    exact List.noConfusion h2
  simp only [camel_case, if_neg harg]
  rw [h, exbind_ok]
  show join [] ((((w :: ws).map pyCapitalize).set 0 w).map PyVal.str)
      JoinErrors.raiseE Option.none = _
  rw [show ((w :: ws).map pyCapitalize).set 0 w = w :: ws.map pyCapitalize from by
    simp [List.set_cons_zero]]
  rw [join_strs, joinWith_nil_cons]

/-- C3 counterexample: the claim's stated value for the default case is
wrong — camel_case("hello world") with capitalize=None is not
"HelloWorld". -/
theorem camel_case_default_cex :
    camel_case (pys "hello world") Option.none ≠ Except.ok (pys "HelloWorld") := by
  decide

/-- C3 witness: the amended theorem at "hello world". -/
theorem camel_case_default_witness :
    camel_case (pys "hello world") Option.none =
      Except.ok (pys "hello" ++ joinWith [] ([pys "world"].map pyCapitalize)) :=
  camel_case_default (pys "hello world") (pys "hello") [pys "world"] (by decide)

/-- C4 (amended): for a non-empty haystack, maxsplit 0 returns the
one-element list of the unchanged haystack for a non-empty literal
delimiter, for a non-empty-matching alternation pattern, and for a
collection of literals whose derived pattern string is non-empty (any
non-empty collection other than the singleton empty literal); for the
whitespace delimiter (None), CPython first strips leading whitespace, so
the result is the stripped haystack as one element (empty list when the
haystack is all whitespace) — the unchanged haystack exactly when it does
not start with whitespace. -/
theorem split_maxsplit_zero (s : List Char) (hs : s ≠ []) :
    (∀ d : List Char, d ≠ [] → split s (By.lit d) (some 0) = .ok [s]) ∧
    (∀ bs : List (List Char), bs ≠ [] → [] ∉ bs →
      split s (By.regex ⟨bs⟩) (some 0) = .ok [s]) ∧
    (∀ ss : List (List Char), ss ≠ [] → ss ≠ [[]] →
      split s (By.coll (ss.map PyVal.str)) (some 0) = .ok [s]) ∧
    split s By.none (some 0) =
      .ok (match s.dropWhile isPySpace with
           | [] => []
           | c :: cs => [c :: cs]) := by
  refine ⟨?_, ?_, ?_, ?_⟩
  · intro d hd
    simp only [split, if_neg hd, pysplitN, pysplitGo_maxzero]
  · intro bs h1 h2
    have h3 : bs ≠ [[]] := by
      intro he
      subst he
      exact h2 (List.mem_singleton.mpr rfl)
    simp only [split, splitRegexBranches,
      if_neg (patternText_ne_nil bs h1 h3)]
    simp
  · intro ss h1 h2
    have hmap : ss.map PyVal.str ≠ [] := by
      simpa using h1
    simp only [split, if_neg hmap]
    rw [mapM_str, exbind_ok]
    simp only [if_neg hs, splitRegexBranches,
      if_neg (patternText_ne_nil ss h1 h2)]
    simp
  · obtain ⟨c0, s0, rfl⟩ : ∃ c0 s0, s = c0 :: s0 := by
      cases s with
      | nil => exact absurd rfl hs
      | cons a b => exact ⟨a, b, rfl⟩
    simp only [split, pysplitWS, List.length_cons, pysplitWSGo]
    cases hdw : (c0 :: s0).dropWhile isPySpace with
    | nil => simp [hdw]
    | cons c cs => simp [hdw]

/-- C4 counterexample: for the whitespace delimiter the claim fails —
`split(" a", by=None, maxsplit=0)` is `["a"]`, not `[" a"]` (CPython's
whitespace split strips the leading space even with a zero budget). -/
theorem split_maxsplit_zero_cex :
    split (pys " a") By.none (some 0) ≠ .ok [pys " a"] := by
  decide

/-- C4 witness: the amended theorem at the haystack "ab" with literal,
pattern, collection and whitespace delimiters. -/
theorem split_maxsplit_zero_witness :
    split (pys "ab") (By.lit (pys "b")) (some 0) = .ok [pys "ab"] ∧
    split (pys "ab") (By.regex ⟨[pys "b"]⟩) (some 0) = .ok [pys "ab"] ∧
    split (pys "ab") (By.coll ([pys "b"].map PyVal.str)) (some 0) = .ok [pys "ab"] ∧
    split (pys "ab") By.none (some 0) = .ok [pys "ab"] :=
  ⟨(split_maxsplit_zero (pys "ab") (by decide)).1 (pys "b") (by decide),
   (split_maxsplit_zero (pys "ab") (by decide)).2.1 [pys "b"] (by decide) (by decide),
   (split_maxsplit_zero (pys "ab") (by decide)).2.2.1 [pys "b"] (by decide) (by decide),
   (split_maxsplit_zero (pys "ab") (by decide)).2.2.2⟩

/-- C5: the round-trip law for literal delimiters — splitting any string
on any non-empty literal delimiter and rejoining with that delimiter
(taipan's join, default error policy) reconstructs the original string,
empty fragments included. -/
theorem join_split_roundtrip (s d : List Char) (hd : d ≠ []) :
    (do
      let L ← split s (By.lit d) Option.none
      join d (L.map PyVal.str) JoinErrors.raiseE Option.none) = Except.ok s := by
  simp only [split, if_neg hd]
  rw [exbind_ok, join_strs, pysplitN,
    joinWith_pysplitGo d hd s.length s (Nat.le_refl _)]

/-- C5 witness: the round trip at s = "a--b-c", d = "-". -/
theorem join_split_roundtrip_witness :
    (do
      let L ← split (pys "a--b-c") (By.lit (pys "-")) Option.none
      join (pys "-") (L.map PyVal.str) JoinErrors.raiseE Option.none) =
      Except.ok (pys "a--b-c") :=
  join_split_roundtrip (pys "a--b-c") (pys "-") (by decide)

/-- C6: Replacer lifecycle errors — supplying a replacement to a replacer
that already holds a complete mapping raises ReplacementError, and
applying a replacer whose replacement has not been supplied raises
ReplacementError; an error returns no new state, so the stored needle set
is untouched (and supplying a replacement to a pending replacer is the
transition that makes any later supply an error). -/
theorem replacer_lifecycle (t : List (List Char × List Char))
    (repl : List Char) (ns : List (List Char)) (h : List Char) :
    Replacer.with_ (ReplacerState.complete t) repl = .error PyErr.replacementError ∧
    Replacer.in_ (ReplacerState.pending ns) h = .error PyErr.replacementError ∧
    Replacer.with_ (ReplacerState.pending ns) repl =
      .ok (ReplacerState.complete (dictFromKeys ns repl)) :=
  ⟨rfl, rfl, rfl⟩

/-- C7: trim with a present prefix removes exactly the prefix
(trim(p + s, prefix=p) = s for all p, s); for a haystack that does not
start with p, strict mode fails with the not-found error and non-strict
mode returns the haystack unchanged. -/
theorem trim_props (s p : List Char) :
    trim (p ++ s) (some p) Option.none false = Except.ok s ∧
    (p.isPrefixOf s = false →
      trim s (some p) Option.none true = Except.error PyErr.notFound ∧
      trim s (some p) Option.none false = Except.ok s) := by
  constructor
  · have hpre : p.isPrefixOf (p ++ s) = true :=
      List.isPrefixOf_iff_prefix.mpr (List.prefix_append p s)
    simp [trim, hpre, List.drop_left]
  · intro hnp
    constructor <;> simp [trim, hnp]

/-- C8: the join error policies at the spec's concrete inputs — an empty
iterable joins to the empty string under raise; cast converts every
element through the textual cast (identity on strings, so [1, "a"] gives
"1-a"); ignore drops non-strings ([1, "a"] gives "a"); raise fails with a
type error on [1]. -/
theorem join_error_policies :
    join (pys "-") [] JoinErrors.raiseE Option.none = .ok [] ∧
    join (pys "-") [PyVal.int 1, PyVal.str (pys "a")] JoinErrors.castE Option.none
      = .ok (pys "1-a") ∧
    join (pys "-") [PyVal.int 1, PyVal.str (pys "a")] JoinErrors.ignoreE Option.none
      = .ok (pys "a") ∧
    join (pys "-") [PyVal.int 1] JoinErrors.raiseE Option.none
      = .error PyErr.typeError := by
  decide

/-- C9: the non-positive-length ValueError applies only to integral
lengths — random((0, 0)) draws length 0 from the pair without any
positivity validation and returns the empty string, while random(0)
raises ValueError. -/
theorem random_length_validation (rng : PyRandom) :
    random rng (Length.pair 0 0) Option.none = .ok [] ∧
    random rng (Length.int 0) Option.none = .error PyErr.valueError := by
  constructor
  · have h0 := rng.randint_mem 0 0 (le_refl 0)
    have hz : rng.randint 0 0 = 0 := le_antisymm h0.2 h0.1
    calc random rng (Length.pair 0 0) Option.none
        = Except.ok (joinWith [] ((List.range (rng.randint 0 0).toNat).map
            (fun i => [rng.choice i defaultChars]))) := rfl
      _ = .ok [] := by rw [hz]; rfl
  · rfl

/-- C10: splitting the empty haystack depends on the delimiter shape —
the whitespace split yields the empty list, any non-empty collection of
literal delimiters short-circuits to [""], and any non-empty literal
delimiter also yields [""]. -/
theorem split_empty_haystack (d : List Char) (hd : d ≠ [])
    (ss : List (List Char)) (hss : ss ≠ []) :
    split [] By.none Option.none = .ok [] ∧
    split [] (By.coll (ss.map PyVal.str)) Option.none = .ok [[]] ∧
    split [] (By.lit d) Option.none = .ok [[]] := by
  refine ⟨rfl, ?_, ?_⟩
  · have hmap : ss.map PyVal.str ≠ [] := by
      simpa using hss
    simp only [split, if_neg hmap]
    rw [mapM_str, exbind_ok]
    simp only [if_true]
    rfl
  · simp only [split, if_neg hd]
    rfl

/-- C10 witness: the theorem at the comma delimiters. -/
theorem split_empty_haystack_witness :
    split [] By.none Option.none = .ok [] ∧
    split [] (By.coll ([pys ","].map PyVal.str)) Option.none = .ok [[]] ∧
    split [] (By.lit (pys ",")) Option.none = .ok [[]] :=
  split_empty_haystack (pys ",") (by decide) [pys ","] (by decide)

end Taipan
